import Mathlib

/-!
Verification of the oslo-quant strategy core (`python/strategy/_classes.py`).

The strategy module itself (`Order`, `Share`, `Strategy`) is embedded directly
from the source.  Its collaborators — the `markets` module (instruments,
time-series lookups, trading calendar) and the `broker` module (fee schedule) —
are not part of the sources at hand, so they are modelled from the spec's
interface descriptions (§4.1, §4.2, §6); each such definition is marked
`Modelled from the spec:`.

Numeric conventions of the embedding: calendar dates are integer day numbers,
monetary amounts and prices are rationals (exact arithmetic standing in for
Python floats), and Python methods that can raise are embedded as functions
into `Except`.
-/

namespace OsloQuant

/-- A calendar date, encoded as an integer day number (ordered like
`datetime.date`). -/
abbrev Date := Int

/-- Modelled from the spec: a `TimeRecord` (§3) — one trading day for one
instrument, with `close` optional and `value` the fallback price.  The field
`open` is renamed `open_` because `open` is a Lean keyword.  All price fields
are optional: a record of an instrument may lack any of them. -/
structure TimeRecord where
  date : Date
  open_ : Option Rat := none
  high : Option Rat := none
  low : Option Rat := none
  close : Option Rat := none
  value : Option Rat := none
  volume : Option Rat := none
deriving DecidableEq

/-- Modelled from the spec: an `Instrument` (§3) — a ticker owning an ordered
sequence of `TimeRecord` (the `data` numpy array of the source, embedded as a
list). -/
structure Instrument where
  ticker : String
  data : List TimeRecord
deriving DecidableEq

/-- Modelled from the spec (§4.1): true iff the instrument has at least one
record on or before `date`. -/
def Instrument.existed_at_date (inst : Instrument) (date : Date) : Bool :=
  inst.data.any (fun r => decide (r.date ≤ date))

/-- Modelled from the spec (§4.1): the first date of the record sequence
(`none` on an empty instrument). -/
def Instrument.get_first_date (inst : Instrument) : Option Date :=
  inst.data.head?.map (fun r => r.date)

/-- Modelled from the spec (§4.1): the last date of the record sequence
(`none` on an empty instrument). -/
def Instrument.get_last_date (inst : Instrument) : Option Date :=
  inst.data.getLast?.map (fun r => r.date)

/-- Modelled from the spec (§4.1): the index of the record at `date`, or of the
most recent record strictly before it; `none` when no record is at or before
`date`.  Under the sortedness invariant of §3 the records at or before `date`
form an initial segment of `data`, so the resolved index is the number of such
records minus one. -/
def Instrument.get_day_index_or_last_before (inst : Instrument) (date : Date) :
    Option Nat :=
  match inst.data.countP (fun r => decide (r.date ≤ date)) with
  | 0 => none
  | Nat.succ k => some k

/-- Modelled from the spec (§4.1): the record at `date`, or the most recent
record strictly before it; `none` (`NotFound`) when no record is at or before
`date`. -/
def Instrument.get_day_or_last_before (inst : Instrument) (date : Date) :
    Option TimeRecord :=
  (inst.get_day_index_or_last_before date).bind (fun i => inst.data[i]?)

/-- Modelled from the spec (§6): the market data provider — a read-only map
from tickers to full-history instruments together with the collection of all
known tickers (whose iteration order the spec promises to be alphabetical). -/
structure Markets where
  instruments : String → Instrument
  tickers : List String

/-- Modelled from the spec (§6): `markets.get_instrument(ticker)` returns the
full-history instrument for `ticker`. -/
def Markets.get_instrument (m : Markets) (ticker : String) : Instrument :=
  m.instruments ticker

/-- Modelled from the spec (§4.2, §6): `markets.get_tickers()` — all known
tickers in the provider's iteration order. -/
def Markets.get_tickers (m : Markets) : List String :=
  m.tickers

/-- Modelled from the spec (§4.2): `markets.trading_days(from_date, to_date)` —
the ascending sequence of distinct dates observed across all instruments within
the closed interval. -/
def Markets.trading_days (m : Markets) (from_date to_date : Date) : List Date :=
  ((((m.tickers.map (fun t => (m.instruments t).data.map (fun r => r.date))).flatten).filter
      (fun d => decide (from_date ≤ d) && decide (d ≤ to_date))).dedup).insertionSort
    (fun a b => a ≤ b)

/-- Modelled from the spec (§6): the fee-schedule collaborator
`broker.calculate_brokerage` — a pure function of an Order's `action`,
`quantity` and `filled_price`. -/
abbrev BrokerageFn := String → Int → Rat → Rat

/-- An order recommendation (source `Order.__init__`): constructed with
`ticker`, `action`, `quantity` and optional limit `price`; the remaining
fields are unset (`filled = false`, the rest `none`) until `fill`. -/
structure Order where
  ticker : String
  action : String
  quantity : Int
  price : Option Rat
  filled : Bool := false
  filled_price : Option Rat := none
  cost : Option Rat := none
  brokerage : Option Rat := none
  total : Option Rat := none
deriving DecidableEq

/-- Source `Order.fill`: sets `filled_price` and `filled`, computes `brokerage`
via the fee-schedule collaborator, then `cost = quantity * filled_price` and
`total = cost + brokerage`.  The source body performs no check of `filled`. -/
def Order.fill (broker : BrokerageFn) (o : Order) (filled_price : Rat) : Order :=
  let o1 : Order := { o with filled_price := some filled_price, filled := true }
  let b : Rat := broker o1.action o1.quantity filled_price
  let c : Rat := (o1.quantity : Rat) * filled_price
  { o1 with brokerage := some b, cost := some c, total := some (c + b) }

/-- Errors the spec assigns to `Order.fill`. -/
inductive FillError
  | alreadyFilled
deriving DecidableEq

/-- Source `Order.fill` viewed with an explicit error channel: the source body
contains no raise statement and no check of `filled`, so every call returns
normally. -/
def Order.fillE (broker : BrokerageFn) (o : Order) (filled_price : Rat) :
    Except FillError Order :=
  Except.ok (o.fill broker filled_price)

/-- A share holding position (source `Share.__init__`). -/
structure Share where
  ticker : String
  quantity : Int
  price : Rat
deriving DecidableEq

/-- Errors of `Share.get_value` (spec §7): `NotFound` when the instrument has
no data at or before the date, `MissingPriceField` when the resolved record has
neither `close` nor `value`. -/
inductive GetValueError
  | notFound
  | missingPriceField
deriving DecidableEq

/-- Source `Share.get_value`: resolves the record at `date` or the last one
before it, takes its `close` price when present, otherwise its `value` field,
and multiplies by `quantity`. -/
def Share.get_value (m : Markets) (sh : Share) (date : Date) :
    Except GetValueError Rat :=
  let instrument := m.get_instrument sh.ticker
  match instrument.get_day_or_last_before date with
  | none => Except.error GetValueError.notFound
  | some day_data =>
    match day_data.close with
    | some c => Except.ok ((sh.quantity : Rat) * c)
    | none =>
      match day_data.value with
      | some v => Except.ok ((sh.quantity : Rat) * v)
      | none => Except.error GetValueError.missingPriceField

/-- A portfolio: shares indexed by ticker. -/
abbrev Portfolio := List (String × Share)

/-- Base strategy state (source `Strategy.__init__`, which also sets
`today := from_date`). -/
structure Strategy where
  money : Rat
  portfolio : Portfolio
  today : Date
  from_date : Date
  to_date : Date
deriving DecidableEq

/-- Source base `Strategy.execute`: stores `today`, `portfolio` and `money`
into the state and returns no orders (the Python base method returns `None`;
subclasses are the ones that return order lists). -/
def Strategy.execute (s : Strategy) (today : Date) (portfolio : Portfolio)
    (money : Rat) : Strategy × Option (List Order) :=
  ({ s with today := today, portfolio := portfolio, money := money }, none)

/-- The error raised by `Strategy.get_instrument` (the source's `ValueError`,
`DoesNotExistYet` in the spec's taxonomy), carrying the ticker, the current
day and the instrument's first and last known dates. -/
inductive GetInstrumentError
  | doesNotExistYet (ticker : String) (today : Date)
      (first_date last_date : Option Date)
deriving DecidableEq

/-- The truncation step of source `Strategy.get_instrument`: resolve
`row_index` for `d` and drop the records after it
(`np.delete(instrument.data, np.s_[row_index + 1:])`).  The `none` branch is
unreachable when the instrument existed at `d`. -/
def Instrument.truncated_to (inst : Instrument) (d : Date) : Instrument :=
  match inst.get_day_index_or_last_before d with
  | none => inst
  | some row_index => { inst with data := inst.data.take (row_index + 1) }

/-- Source `Strategy.get_instrument`: deep-copy the instrument (value semantics
here), raise if it did not exist at `self.today`, otherwise truncate the copy
to the resolved index. -/
def Strategy.get_instrument (m : Markets) (s : Strategy) (ticker : String) :
    Except GetInstrumentError Instrument :=
  let instrument := m.get_instrument ticker
  if !(instrument.existed_at_date s.today) then
    Except.error (GetInstrumentError.doesNotExistYet ticker s.today
      instrument.get_first_date instrument.get_last_date)
  else
    Except.ok (instrument.truncated_to s.today)

/-- Source `Strategy.get_instruments`: iterate `markets.get_tickers()`, keep
each point-in-time view that `get_instrument` produces and silently skip the
tickers for which it raises. -/
def Strategy.get_instruments (m : Markets) (s : Strategy) : List Instrument :=
  (m.get_tickers).filterMap (fun t =>
    match Strategy.get_instrument m s t with
    | Except.ok i => some i
    | Except.error _ => none)

/-- Source `Strategy.trading_days`: the body is
`yield markets.trading_days(from_date, to_date)`, a generator that yields a
single item — the whole object returned by the calendar — so its item type is
a sequence of dates, not a date. -/
def Strategy.trading_days (m : Markets) (_s : Strategy)
    (from_date to_date : Date) : List (List Date) :=
  [m.trading_days from_date to_date]

/-- Source `Strategy.get_instrument` with the market store threaded through
explicitly, making the effect on the shared store visible: `deepcopy` gives
the local instrument value semantics, so the store component comes back as it
went in. -/
def Strategy.get_instrument_with_store (m : Markets) (s : Strategy)
    (ticker : String) : Except GetInstrumentError Instrument × Markets :=
  (Strategy.get_instrument m s ticker, m)

/-! ### Concrete fixtures used by counterexamples and witnesses -/

/-- A flat fee schedule charging 2.50 on every order, used for concrete
evaluations. -/
def brokerFlat : BrokerageFn := fun _ _ _ => (5 : Rat) / 2

/-- A fresh buy order for 100 shares with limit price 5.00. -/
def orderBuy100 : Order :=
  { ticker := "ACME", action := "buy", quantity := 100, price := some 5 }

/-- A concrete order that is already filled (all filled-state fields set). -/
def filledOrderC : Order :=
  { ticker := "ACME", action := "buy", quantity := 100, price := some 5,
    filled := true, filled_price := some 5, cost := some 500,
    brokerage := some (5 / 2), total := some (1005 / 2) }

/-- The record of day 2 in the running scenario: close 25. -/
def rec2W : TimeRecord := { date := 2, close := some 25, value := some 25 }

/-- The record of day 6 in the running scenario: close 12. -/
def rec6W : TimeRecord := { date := 6, close := some 12 }

/-- The record sequence of the concrete instrument: days 2 and 6 only. -/
def acmeData : List TimeRecord := [rec2W, rec6W]

/-- A concrete market store holding one instrument with data, keyed
consistently (every ticker maps to an instrument carrying that ticker). -/
def mW : Markets :=
  { instruments := fun t =>
      { ticker := t, data := if t = "ACME" then acmeData else [] },
    tickers := ["ACME"] }

/-- A concrete strategy state whose current day is 5. -/
def sW5 : Strategy :=
  { money := 1000, portfolio := [], today := 5, from_date := 1, to_date := 10 }

/-- A concrete long position of 10 shares. -/
def shTen : Share := { ticker := "ACME", quantity := 10, price := 20 }

/-- A concrete short position of 5 shares. -/
def shShort : Share := { ticker := "ACME", quantity := -5, price := 20 }

/-! ### Helper lemmas -/

/-- On a record list strictly ascending in date, the records dated at or
before `d` form an initial run: their count equals the length of the
`takeWhile` run. -/
theorem countP_date_le_eq_length_takeWhile (d : Date) :
    ∀ l : List TimeRecord, l.Pairwise (fun a b => a.date < b.date) →
      l.countP (fun r => decide (r.date ≤ d))
        = (l.takeWhile (fun r => decide (r.date ≤ d))).length := by
  intro l
  induction l with
  | nil => intro _; rfl
  | cons a t ih =>
    intro h
    rcases List.pairwise_cons.mp h with ⟨ha, ht⟩
    by_cases hp : a.date ≤ d
    · rw [List.countP_cons_of_pos _ _ (by simpa using hp),
        List.takeWhile_cons_of_pos (by simpa using hp), List.length_cons, ih ht]
    · have hz : t.countP (fun r => decide (r.date ≤ d)) = 0 :=
        List.countP_eq_zero.mpr (fun b hb => by
          have hab : a.date < b.date := ha b hb
          intro hbd
          simp only [decide_eq_true_eq] at hbd
          exact hp ((hab.trans_le hbd).le))
      rw [List.countP_cons_of_neg _ _ (by simpa using hp),
        List.takeWhile_cons_of_neg (by simpa using hp), hz]
      rfl

/-- On a record list strictly ascending in date, taking as many records as are
dated at or before `d` is the same as taking while the date is at or before
`d`. -/
theorem take_countP_date_le_eq_takeWhile (d : Date) :
    ∀ l : List TimeRecord, l.Pairwise (fun a b => a.date < b.date) →
      l.take (l.countP (fun r => decide (r.date ≤ d)))
        = l.takeWhile (fun r => decide (r.date ≤ d)) := by
  intro l
  induction l with
  | nil => intro _; rfl
  | cons a t ih =>
    intro h
    rcases List.pairwise_cons.mp h with ⟨ha, ht⟩
    by_cases hp : a.date ≤ d
    · rw [List.countP_cons_of_pos _ _ (by simpa using hp),
        List.takeWhile_cons_of_pos (by simpa using hp), List.take_succ_cons,
        ih ht]
    · have hz : t.countP (fun r => decide (r.date ≤ d)) = 0 :=
        List.countP_eq_zero.mpr (fun b hb => by
          have hab : a.date < b.date := ha b hb
          intro hbd
          simp only [decide_eq_true_eq] at hbd
          exact hp ((hab.trans_le hbd).le))
      rw [List.countP_cons_of_neg _ _ (by simpa using hp), hz,
        List.takeWhile_cons_of_neg (by simpa using hp)]
      rfl

/-- The truncation step never changes the ticker of the view. -/
theorem truncated_to_ticker (inst : Instrument) (d : Date) :
    (inst.truncated_to d).ticker = inst.ticker := by
  unfold Instrument.truncated_to
  cases inst.get_day_index_or_last_before d <;> rfl

/-- `get_instruments` unrolled over an arbitrary ticker list: each ticker
contributes its truncated view exactly when it existed at `today`, in
iteration order. -/
theorem filterMap_get_instrument_eq (m : Markets) (s : Strategy) :
    ∀ l : List String,
      l.filterMap (fun t =>
        match Strategy.get_instrument m s t with
        | Except.ok i => some i
        | Except.error _ => none)
      = (l.filter
          (fun t => (m.get_instrument t).existed_at_date s.today)).map
          (fun t => (m.get_instrument t).truncated_to s.today) := by
  intro l
  induction l with
  | nil => rfl
  | cons a t ih =>
    by_cases hex : (m.get_instrument a).existed_at_date s.today = true
    · have hok : Strategy.get_instrument m s a
          = Except.ok ((m.get_instrument a).truncated_to s.today) := by
        simp [Strategy.get_instrument, hex]
      simp [List.filterMap_cons, List.filter_cons, hok, hex, ih]
    · have hf : (m.get_instrument a).existed_at_date s.today = false := by
        simpa using hex
      have herr : Strategy.get_instrument m s a
          = Except.error (GetInstrumentError.doesNotExistYet a s.today
              (m.get_instrument a).get_first_date
              (m.get_instrument a).get_last_date) := by
        simp [Strategy.get_instrument, hf]
      simp [List.filterMap_cons, List.filter_cons, herr, hf, ih]

/-! ### Claim theorems -/

/-- Claim C9: the base `Strategy.execute` updates exactly `today`, `portfolio`
and `money` to its arguments, leaves `from_date` and `to_date` unchanged, and
returns no orders. -/
theorem execute_updates_exactly_today_portfolio_money (s : Strategy)
    (today : Date) (portfolio : Portfolio) (money : Rat) :
    (Strategy.execute s today portfolio money).1.today = today ∧
    (Strategy.execute s today portfolio money).1.portfolio = portfolio ∧
    (Strategy.execute s today portfolio money).1.money = money ∧
    (Strategy.execute s today portfolio money).1.from_date = s.from_date ∧
    (Strategy.execute s today portfolio money).1.to_date = s.to_date ∧
    (Strategy.execute s today portfolio money).2 = none :=
  ⟨rfl, rfl, rfl, rfl, rfl, rfl⟩

/-- Claim C3: after `fill(p)` on an order of quantity `q`, the order has
`filled = true`, `filled_price = p`, `cost = q * p`,
`brokerage` the amount from the fee-schedule collaborator and
`total = cost + brokerage`; in particular a buy of 100 shares filled at 5.10
with brokerage 2.50 has cost 510 and total 512.50. -/
theorem fill_sets_fields (broker : BrokerageFn) (o : Order) (p : Rat) :
    (Order.fill broker o p).filled = true ∧
    (Order.fill broker o p).filled_price = some p ∧
    (Order.fill broker o p).cost = some ((o.quantity : Rat) * p) ∧
    (Order.fill broker o p).brokerage = some (broker o.action o.quantity p) ∧
    (Order.fill broker o p).total
      = some ((o.quantity : Rat) * p + broker o.action o.quantity p) ∧
    (Order.fill brokerFlat orderBuy100 (51 / 10)).cost = some 510 ∧
    (Order.fill brokerFlat orderBuy100 (51 / 10)).total = some (1025 / 2) :=
  ⟨rfl, rfl, rfl, rfl, rfl,
    by norm_num [Order.fill, orderBuy100, brokerFlat],
    by norm_num [Order.fill, orderBuy100, brokerFlat]⟩

/-- Claim C2 counterexample: `Order.fill` performs no check of `filled`; on an
already-filled concrete order a second `fill` returns normally instead of
raising `AlreadyFilled`. -/
theorem fill_twice_counterexample :
    filledOrderC.filled = true ∧
    Order.fillE brokerFlat filledOrderC 6 ≠ Except.error FillError.alreadyFilled :=
  ⟨rfl, fun h => Except.noConfusion h⟩

/-- Claim C2 amended: a second `fill` does not raise; it overwrites every
filled-state field, so filling twice is the same as filling the original order
once at the second price. -/
theorem fill_second_call_overwrites (broker : BrokerageFn) (o : Order)
    (p1 p2 : Rat) :
    Order.fill broker (Order.fill broker o p1) p2 = Order.fill broker o p2 ∧
    (Order.fill broker (Order.fill broker o p1) p2).filled = true :=
  ⟨rfl, rfl⟩

/-- Claim C4: `Strategy.get_instrument` fails with the does-not-exist-yet error
carrying the instrument's first and last known dates exactly when
`existed_at_date(self.today)` is false. -/
theorem get_instrument_doesNotExistYet_iff (m : Markets) (s : Strategy)
    (ticker : String) :
    (Strategy.get_instrument m s ticker
        = Except.error (GetInstrumentError.doesNotExistYet ticker s.today
            (m.get_instrument ticker).get_first_date
            (m.get_instrument ticker).get_last_date))
      ↔ (m.get_instrument ticker).existed_at_date s.today = false := by
  unfold Strategy.get_instrument
  cases h : (m.get_instrument ticker).existed_at_date s.today <;> simp [h]

/-- Claim C1: for a ticker whose instrument (with strictly ascending record
dates) exists at `today`, the point-in-time view succeeds, contains exactly
the records up to and including the index resolved by
`get_day_index_or_last_before(today)`, the resolved record's date is at or
before `today`, and no record of the view is dated after the resolved trading
day. -/
theorem get_instrument_point_in_time (m : Markets) (s : Strategy)
    (ticker : String)
    (hsorted : ((m.get_instrument ticker).data).Pairwise
      (fun a b => a.date < b.date))
    (hex : (m.get_instrument ticker).existed_at_date s.today = true) :
    ∃ i rres v,
      (m.get_instrument ticker).get_day_index_or_last_before s.today = some i ∧
      ((m.get_instrument ticker).data)[i]? = some rres ∧
      Strategy.get_instrument m s ticker = Except.ok v ∧
      v.data = ((m.get_instrument ticker).data).take (i + 1) ∧
      rres.date ≤ s.today ∧
      ∀ r ∈ v.data, r.date ≤ rres.date := by
  set l := (m.get_instrument ticker).data with hl
  have hn : 0 < l.countP (fun r => decide (r.date ≤ s.today)) := by
    refine List.countP_pos_iff.mpr ?_
    have hx := hex
    unfold Instrument.existed_at_date at hx
    rw [← hl] at hx
    exact List.any_eq_true.mp hx
  obtain ⟨k, hk⟩ : ∃ k, l.countP (fun r => decide (r.date ≤ s.today)) = k + 1 :=
    ⟨l.countP (fun r => decide (r.date ≤ s.today)) - 1, by omega⟩
  have hidx : (m.get_instrument ticker).get_day_index_or_last_before s.today
      = some k := by
    unfold Instrument.get_day_index_or_last_before
    rw [← hl, hk]
  have hklen : k < l.length := by
    have hle := List.countP_le_length (fun r => decide (r.date ≤ s.today))
      (l := l)
    omega
  have htake : l.take (k + 1)
      = l.takeWhile (fun r => decide (r.date ≤ s.today)) := by
    rw [← hk]
    exact take_countP_date_le_eq_takeWhile s.today l hsorted
  have hmemtake : ∀ r ∈ l.take (k + 1), r.date ≤ s.today := by
    intro r hr
    rw [htake] at hr
    simpa using List.mem_takeWhile_imp hr
  have hself : l[k] ∈ l.take (k + 1) := by
    have hlen : k < (l.take (k + 1)).length := by
      simp only [List.length_take]
      omega
    have h1 : (l.take (k + 1))[k] ∈ l.take (k + 1) := List.getElem_mem hlen
    rwa [List.getElem_take] at h1
  have hbound : ∀ r ∈ l.take (k + 1), r.date ≤ (l[k]).date := by
    intro r hr
    rcases List.mem_iff_getElem.mp hr with ⟨j, hj, hje⟩
    have hjk : j < k + 1 := by
      have hj' := hj
      simp only [List.length_take] at hj'
      omega
    have hjl : j < l.length := by omega
    rcases Nat.lt_or_ge j k with hlt | hge
    · have hrel : l[j].date < l[k].date :=
        (List.pairwise_iff_getElem.mp hsorted) j k hjl hklen hlt
      rw [← hje, List.getElem_take]
      exact hrel.le
    · have hjk' : j = k := by omega
      subst hjk'
      rw [← hje, List.getElem_take]
  refine ⟨k, l[k], (m.get_instrument ticker).truncated_to s.today,
    hidx, List.getElem?_eq_getElem hklen, ?_, ?_, hmemtake _ hself, ?_⟩
  · simp [Strategy.get_instrument, hex]
  · simp only [Instrument.truncated_to, hidx, ← hl]
  · intro r hr
    refine hbound r ?_
    simp only [Instrument.truncated_to, hidx, ← hl] at hr
    exact hr

/-- Claim C1 witness: the theorem applied to the concrete market with records
on days 2 and 6 at today = 5. -/
theorem get_instrument_point_in_time_witness :
    ∃ i rres v,
      (mW.get_instrument "ACME").get_day_index_or_last_before sW5.today
        = some i ∧
      ((mW.get_instrument "ACME").data)[i]? = some rres ∧
      Strategy.get_instrument mW sW5 "ACME" = Except.ok v ∧
      v.data = ((mW.get_instrument "ACME").data).take (i + 1) ∧
      rres.date ≤ sW5.today ∧
      ∀ r ∈ v.data, r.date ≤ rres.date :=
  get_instrument_point_in_time mW sW5 "ACME" (by decide) (by decide)

/-- Claim C10: `get_instruments` performs no sorting of its own — its output
is exactly the provider's ticker iteration order filtered by existence at
`today`, each ticker mapped to its truncated view. -/
theorem get_instruments_follows_provider_order (m : Markets) (s : Strategy) :
    Strategy.get_instruments m s
      = ((m.get_tickers).filter
          (fun t => (m.get_instrument t).existed_at_date s.today)).map
          (fun t => (m.get_instrument t).truncated_to s.today) :=
  filterMap_get_instrument_eq m s (m.get_tickers)

/-- Claim C5: when the provider's tickers are keyed consistently and iterate
alphabetically (as the spec promises of `get_tickers`), `get_instruments`
returns an alphabetically sorted list of views for exactly the tickers that
exist at `today`; tickers failing the existence check are silently excluded
and the call never fails. -/
theorem get_instruments_sorted_exactly_existing (m : Markets) (s : Strategy)
    (hkey : ∀ t, (m.get_instrument t).ticker = t)
    (hsort : List.Sorted (fun a b : String => a ≤ b) (m.get_tickers)) :
    List.Sorted (fun a b : String => a ≤ b)
        ((Strategy.get_instruments m s).map Instrument.ticker) ∧
    (Strategy.get_instruments m s).map Instrument.ticker
      = (m.get_tickers).filter
          (fun t => (m.get_instrument t).existed_at_date s.today) := by
  have hmap : (Strategy.get_instruments m s).map Instrument.ticker
      = (m.get_tickers).filter
          (fun t => (m.get_instrument t).existed_at_date s.today) := by
    rw [show Strategy.get_instruments m s = _ from
      filterMap_get_instrument_eq m s (m.get_tickers), List.map_map]
    have hcongr : ∀ t ∈ (m.get_tickers).filter
        (fun t => (m.get_instrument t).existed_at_date s.today),
        (Instrument.ticker ∘ fun t => (m.get_instrument t).truncated_to s.today)
            t = id t := by
      intro t _
      simp only [Function.comp_apply, id_eq, truncated_to_ticker]
      exact hkey t
    rw [List.map_congr_left hcongr, List.map_id]
  constructor
  · rw [hmap]
    exact List.Pairwise.filter _ hsort
  · exact hmap

/-- Claim C5 witness: the theorem applied to the concrete market whose single
ticker exists at today = 5. -/
theorem get_instruments_sorted_exactly_existing_witness :
    List.Sorted (fun a b : String => a ≤ b)
        ((Strategy.get_instruments mW sW5).map Instrument.ticker) ∧
    (Strategy.get_instruments mW sW5).map Instrument.ticker
      = (mW.get_tickers).filter
          (fun t => (mW.get_instrument t).existed_at_date sW5.today) :=
  get_instruments_sorted_exactly_existing mW sW5 (fun _ => rfl)
    (List.sorted_singleton "ACME")

/-- Claim C7: when the lookup for the share's ticker resolves to a record
(data exists at or before `date`), `get_value` returns quantity times the
record's close price when present, otherwise quantity times its `value`
field. -/
theorem share_get_value_close_else_value (m : Markets) (sh : Share)
    (date : Date) (r : TimeRecord)
    (hres : (m.get_instrument sh.ticker).get_day_or_last_before date
      = some r) :
    (∀ c, r.close = some c →
      Share.get_value m sh date = Except.ok ((sh.quantity : Rat) * c)) ∧
    (∀ v, r.close = none → r.value = some v →
      Share.get_value m sh date = Except.ok ((sh.quantity : Rat) * v)) := by
  constructor
  · intro c hc
    unfold Share.get_value
    simp only [hres, hc]
  · intro v hc hv
    unfold Share.get_value
    simp only [hres, hc, hv]

/-- Claim C7 witness: at today = 5 the lookup resolves to the day-2 record
with close 25; quantity 10 values at 250 and quantity -5 at -125. -/
theorem share_get_value_witness :
    Share.get_value mW shTen 5 = Except.ok 250 ∧
    Share.get_value mW shShort 5 = Except.ok (-125) := by
  constructor
  · have h := (share_get_value_close_else_value mW shTen 5 rec2W rfl).1 25 rfl
    rw [h]
    norm_num [shTen]
  · have h := (share_get_value_close_else_value mW shShort 5 rec2W rfl).1 25 rfl
    rw [h]
    norm_num [shShort]

/-- Claim C8: `get_instrument` never mutates the shared store — threading the
store through the call returns it unchanged whether the call succeeds or
fails, and a successful view's data is an initial segment of the untouched
store instrument's data (the truncation happened on the copy only). -/
theorem get_instrument_store_unchanged (m : Markets) (s : Strategy)
    (ticker : String) :
    (Strategy.get_instrument_with_store m s ticker).2 = m ∧
    ∀ v, (Strategy.get_instrument_with_store m s ticker).1 = Except.ok v →
      ∃ k, v.data
        = (((Strategy.get_instrument_with_store m s ticker).2).get_instrument
            ticker).data.take k := by
  refine ⟨rfl, fun v hv => ?_⟩
  have hv' : Strategy.get_instrument m s ticker = Except.ok v := hv
  by_cases hex : (m.get_instrument ticker).existed_at_date s.today = true
  · have hok : Strategy.get_instrument m s ticker
        = Except.ok ((m.get_instrument ticker).truncated_to s.today) := by
      simp [Strategy.get_instrument, hex]
    rw [hok] at hv'
    have hveq : (m.get_instrument ticker).truncated_to s.today = v :=
      by injection hv'
    rw [← hveq]
    show ∃ k, ((m.get_instrument ticker).truncated_to s.today).data
      = ((m.get_instrument ticker)).data.take k
    unfold Instrument.truncated_to
    cases hidx : (m.get_instrument ticker).get_day_index_or_last_before s.today
    · exact ⟨(m.get_instrument ticker).data.length,
        (List.take_length _).symm⟩
    · exact ⟨_ + 1, rfl⟩
  · have hf : (m.get_instrument ticker).existed_at_date s.today = false := by
      simpa using hex
    rw [show Strategy.get_instrument m s ticker
        = Except.error (GetInstrumentError.doesNotExistYet ticker s.today
            (m.get_instrument ticker).get_first_date
            (m.get_instrument ticker).get_last_date) from
      by simp [Strategy.get_instrument, hf]] at hv'
    exact absurd hv' (fun hcon => Except.noConfusion hcon)

/-- Claim C8 witness: the theorem applied at the concrete market; the
successful view's data is an initial segment of the unchanged store data. -/
theorem get_instrument_store_unchanged_witness :
    (Strategy.get_instrument_with_store mW sW5 "ACME").2 = mW ∧
    ∃ k, ((mW.get_instrument "ACME").truncated_to sW5.today).data
      = (((Strategy.get_instrument_with_store mW sW5 "ACME").2).get_instrument
          "ACME").data.take k :=
  ⟨(get_instrument_store_unchanged mW sW5 "ACME").1,
    (get_instrument_store_unchanged mW sW5 "ACME").2
      ((mW.get_instrument "ACME").truncated_to sW5.today) rfl⟩

/-- Claim C6 (code defect): `Strategy.trading_days` yields a single item — the
entire calendar sequence returned by `markets.trading_days` — instead of one
date per yielded item; at a concrete input spanning two trading days the
generator produces one item while the calendar holds two dates, contradicting
the method's own docstring ("Yields: datetime.date objects"). -/
theorem trading_days_yields_single_item :
    Strategy.trading_days mW sW5 2 6 = [mW.trading_days 2 6] ∧
    (Strategy.trading_days mW sW5 2 6).length = 1 ∧
    mW.trading_days 2 6 = [2, 6] ∧
    (mW.trading_days 2 6).length = 2 :=
  ⟨rfl, rfl, by decide, by decide⟩

end OsloQuant
